import Mathlib

/-!
Verification of the aedis RESP3 client core: a shallow embedding of the
RESP3 incremental read loop, the exec operations, the reader/writer pair
and the endpoint helpers, with theorems checking the natural-language
specification against the code.

Sources embedded:
  - include/aedis/resp3/detail/read_ops.hpp (parse_op, ignore_response)
  - the synchronous aedis::resp3::read loop
  - aedis::resp3::detail::exec_op / exec_with_timeout_op
  - aedis::redis read_op / writer_op
  - aedis/impl/endpoint.ipp (is_valid, requires_auth)

The RESP3 parser itself (detail/parser.hpp) and the type table
(resp3/type.hpp) are not part of the available sources; they are modelled
from the specification as flagged on each definition.  Byte streams are
embedded as lists of characters; a chunked stream is a list of byte
lists, one entry per delivery of the underlying socket read.
-/

namespace Aedis

/-- Modelled from the spec: the RESP3 element kinds of resp3/type.hpp
(the header is missing from the sources; the kind list follows the
specification's data model section). -/
inductive rtype where
  | simple_string
  | simple_error
  | blob_string
  | blob_error
  | number
  | double
  | boolean
  | null
  | big_number
  | verbatim_string
  | array
  | map
  | set
  | attrib
  | push
  | streamed_string_part
  | invalid
deriving DecidableEq, Repr

/-- Error codes used by the embedded operations (values of aedis/error.hpp
referenced by the embedded sources; unexpected_eof also stands for the
stream-exhausted condition the asio read operations report). -/
inductive aerror where
  | resp3_simple_error
  | resp3_blob_error
  | exec_timeout
  | operation_aborted
  | unexpected_eof
  | unknown_type
  | not_a_number
  | incompatible_size
  | other (n : Nat)
deriving DecidableEq, Repr

/-- One node event of the pre-order traversal, field names as in the
source node type: data_type, size (aggregate size), depth, data. -/
structure node where
  data_type : rtype
  size : Nat
  depth : Nat
  data : List Char
deriving DecidableEq, Repr

/-- Modelled from the spec: the type-byte table of resp3/type.hpp
(missing from the sources), following the framing rules section:
the bytes are mapped in order to the listed kinds. -/
def to_type (c : Char) : rtype :=
  if c = '+' then rtype.simple_string
  else if c = '-' then rtype.simple_error
  else if c = ':' then rtype.number
  else if c = ',' then rtype.double
  else if c = '#' then rtype.boolean
  else if c = '_' then rtype.null
  else if c = '(' then rtype.big_number
  else if c = '=' then rtype.verbatim_string
  else if c = '$' then rtype.blob_string
  else if c = '!' then rtype.blob_error
  else if c = '*' then rtype.array
  else if c = '~' then rtype.set
  else if c = '%' then rtype.map
  else if c = '|' then rtype.attrib
  else if c = '>' then rtype.push
  else if c = ';' then rtype.streamed_string_part
  else rtype.invalid

/-- Modelled from the spec: element multiplicity, 2 for map/attribute and
1 otherwise. -/
def element_multiplicity (t : rtype) : Nat :=
  match t with
  | rtype.map => 2
  | rtype.attrib => 2
  | _ => 1

/-- Modelled from the spec: the aggregate kinds. -/
def is_aggregate (t : rtype) : Bool :=
  match t with
  | rtype.array => true
  | rtype.map => true
  | rtype.set => true
  | rtype.attrib => true
  | rtype.push => true
  | _ => false

/-- Modelled from the spec: the blob kinds whose payload is read by
declared length after the header line. -/
def is_blob (t : rtype) : Bool :=
  match t with
  | rtype.blob_string => true
  | rtype.blob_error => true
  | rtype.verbatim_string => true
  | _ => false

/-- Modelled from the spec: one frame of the parser's explicit nesting
stack: a counting aggregate with its remaining descendant-slot count, a
streaming aggregate (declared size ?), or a streaming blob string. -/
inductive pframe where
  | agg (remaining : Nat)
  | str_agg
  | str_blob
deriving DecidableEq, Repr

/-- Modelled from the spec: the incremental parser state, exposing the
interface the read loops use: bulk (invalid when the next token is a
header line), bulk_length, and done. -/
structure parser_state where
  stack : List pframe
  bulk : rtype
  bulk_length : Nat
  done : Bool
deriving DecidableEq, Repr

/-- The parser state at the start of one top-level element. -/
def init_state : parser_state :=
  { stack := [], bulk := rtype.invalid, bulk_length := 0, done := false }

/-- Modelled from the spec: close one element at the current depth:
decrement the top counting frame, popping frames that reach zero; the
Bool is true when the stack empties (top-level element complete).
Streaming frames stay open. -/
def commit_elem : List pframe → List pframe × Bool
  | [] => ([], true)
  | pframe.agg r :: rest =>
      if r ≤ 1 then commit_elem rest
      else (pframe.agg (r - 1) :: rest, false)
  | pframe.str_agg :: rest => (pframe.str_agg :: rest, false)
  | pframe.str_blob :: rest => (pframe.str_blob :: rest, false)

/-- Modelled from the spec: the empty streamed marker closes the
enclosing streaming frame, then the completed stream counts as one
element of its parent. -/
def close_stream : List pframe → Except aerror (List pframe × Bool)
  | pframe.str_blob :: rest => Except.ok (commit_elem rest)
  | pframe.str_agg :: rest => Except.ok (commit_elem rest)
  | _ => Except.error aerror.incompatible_size

/-- Decimal digit value of a character. -/
def digit_val (c : Char) : Option Nat :=
  if '0' ≤ c ∧ c ≤ '9' then some (c.toNat - '0'.toNat) else none

/-- Accumulating decimal reader for header payloads. -/
def parse_size_go : List Char → Nat → Option Nat
  | [], acc => some acc
  | c :: rest, acc =>
      match digit_val c with
      | none => none
      | some d => parse_size_go rest (acc * 10 + d)

/-- Modelled from the spec: the declared size/length field of a header
line; a non-numeric field is the not_a_number error. -/
def parse_size : List Char → Option Nat
  | [] => none
  | l => parse_size_go l 0

/-- Modelled from the spec: process one header line (type byte c and the
content between the type byte and the delimiter), emitting node events
and updating the nesting stack. -/
def consume_line (p : parser_state) (c : Char) (content : List Char) :
    Except aerror (parser_state × List node) :=
  let t := to_type c
  let d := p.stack.length
  if t = rtype.invalid then Except.error aerror.unknown_type
  else if is_blob t then
    (if content = ['?'] then
      Except.ok ({ stack := pframe.str_blob :: p.stack, bulk := rtype.invalid,
                   bulk_length := 0, done := false }, ([] : List node))
    else
      match parse_size content with
      | none => Except.error aerror.not_a_number
      | some l =>
          Except.ok ({ stack := p.stack, bulk := t, bulk_length := l,
                       done := false }, ([] : List node)))
  else if t = rtype.streamed_string_part then
    match parse_size content with
    | none => Except.error aerror.not_a_number
    | some 0 =>
        (match close_stream p.stack with
        | Except.error e => Except.error e
        | Except.ok (st, dn) =>
            Except.ok ({ stack := st, bulk := rtype.invalid, bulk_length := 0,
                         done := dn }, [⟨t, 1, d, []⟩]))
    | some (l + 1) =>
        Except.ok ({ stack := p.stack, bulk := t, bulk_length := l + 1,
                     done := false }, ([] : List node))
  else if is_aggregate t then
    (if content = ['?'] then
      Except.ok ({ stack := pframe.str_agg :: p.stack, bulk := rtype.invalid,
                   bulk_length := 0, done := false }, [⟨t, 0, d, []⟩])
    else
      match parse_size content with
      | none => Except.error aerror.not_a_number
      | some n =>
          if n * element_multiplicity t = 0 then
            (let r := commit_elem p.stack
            Except.ok ({ stack := r.1, bulk := rtype.invalid, bulk_length := 0,
                         done := r.2 }, [⟨t, n, d, []⟩]))
          else
            Except.ok ({ stack := pframe.agg (n * element_multiplicity t) :: p.stack,
                         bulk := rtype.invalid, bulk_length := 0,
                         done := false }, [⟨t, n, d, []⟩]))
  else
    (let r := commit_elem p.stack
    Except.ok ({ stack := r.1, bulk := rtype.invalid, bulk_length := 0,
                 done := r.2 }, [⟨t, 1, d, content⟩]))

/-- Whether the top stack frame is an open streaming blob. -/
def open_blob_stream : List pframe → Bool
  | pframe.str_blob :: _ => true
  | _ => false

/-- Modelled from the spec: process a bulk payload (the declared length
of bytes after a blob header); a streamed chunk leaves its stream frame
open, any other blob closes one element. -/
def consume_bulk (p : parser_state) (pl : List Char) : parser_state × List node :=
  let nd : node := ⟨p.bulk, 1, p.stack.length, pl⟩
  if p.bulk = rtype.streamed_string_part && open_blob_stream p.stack then
    ({ stack := p.stack, bulk := rtype.invalid, bulk_length := 0, done := false }, [nd])
  else
    (let r := commit_elem p.stack
    ({ stack := r.1, bulk := rtype.invalid, bulk_length := 0, done := r.2 }, [nd]))

/-- Split a byte list at the first CRLF: the first component is the
header token up to and including the delimiter (what asio read_until
reports as the token size), the second the bytes after it. -/
def split_crlf : List Char → Option (List Char × List Char)
  | '\r' :: '\n' :: rest => some (['\r', '\n'], rest)
  | c :: rest =>
      (match split_crlf rest with
      | some (tok, r) => some (c :: tok, r)
      | none => none)
  | [] => none

/-- One token of the read loop, as read_ops.hpp extracts it: a header
line when the parser expects a line (bulk() == invalid), otherwise
exactly bulk_length + 2 bytes taken by count, with no delimiter scan. -/
def take_tok (p : parser_state) (buf : List Char) : Option (List Char × List Char) :=
  if p.bulk = rtype.invalid then split_crlf buf
  else if p.bulk_length + 2 ≤ buf.length then
    some (buf.take (p.bulk_length + 2), buf.drop (p.bulk_length + 2))
  else none

/-- Feed one complete token to the parser, as parser::consume receives
it from the read loops. -/
def consume_tok (p : parser_state) (tok : List Char) :
    Except aerror (parser_state × List node) :=
  if p.bulk = rtype.invalid then
    match tok with
    | [] => Except.error aerror.unknown_type
    | c :: rest => consume_line p c (rest.take (rest.length - 2))
  else Except.ok (consume_bulk p (tok.take p.bulk_length))

/-- The whole-input drive: the loop of parse_op / resp3::read run over a
byte sequence that is entirely available, returning the node events, the
number of consumed bytes and the unconsumed remainder.  The fuel is
structural; drive_all supplies enough for every step. -/
def drive_go : Nat → parser_state → List Char → Except aerror (List node × Nat × List Char)
  | 0, _, _ => Except.error aerror.unexpected_eof
  | f + 1, p, buf =>
    match take_tok p buf with
    | none => Except.error aerror.unexpected_eof
    | some (tok, rest) =>
      match consume_tok p tok with
      | Except.error e => Except.error e
      | Except.ok (p2, evs) =>
        if p2.done then Except.ok (evs, tok.length, rest)
        else
          match drive_go f p2 rest with
          | Except.error e => Except.error e
          | Except.ok (evs2, n2, left) => Except.ok (evs ++ evs2, tok.length + n2, left)

/-- Whole-input drive with sufficient fuel. -/
def drive_all (p : parser_state) (buf : List Char) :
    Except aerror (List node × Nat × List Char) :=
  drive_go (buf.length + 1) p buf

/-- Fuel covering every consume step and every chunk pull of a chunked
drive. -/
def chunks_fuel (buf : List Char) (chunks : List (List Char)) : Nat :=
  buf.length + chunks.flatten.length + chunks.length + 1

/-- The chunked drive: the loop of parse_op as it runs against a socket,
with the buffer initially holding buf and the socket delivering the
chunks in order.  When the buffer does not yet hold a complete token the
loop reads more (one chunk per read); tokens are then consumed exactly
as in the whole-input drive.  Returns the node events, the consumed
byte count, the remaining buffer and the undelivered chunks. -/
def drive_chunks_go : Nat → parser_state → List Char → List (List Char) →
    Except aerror (List node × Nat × List Char × List (List Char))
  | 0, _, _, _ => Except.error aerror.unexpected_eof
  | f + 1, p, buf, chunks =>
    match take_tok p buf with
    | some (tok, rest) =>
      match consume_tok p tok with
      | Except.error e => Except.error e
      | Except.ok (p2, evs) =>
        if p2.done then Except.ok (evs, tok.length, rest, chunks)
        else
          match drive_chunks_go f p2 rest chunks with
          | Except.error e => Except.error e
          | Except.ok (evs2, n2, left, cs) =>
              Except.ok (evs ++ evs2, tok.length + n2, left, cs)
    | none =>
      match chunks with
      | [] => Except.error aerror.unexpected_eof
      | c :: cs => drive_chunks_go f p (buf ++ c) cs

/-- Chunked drive with sufficient fuel. -/
def drive_chunks (p : parser_state) (buf : List Char) (chunks : List (List Char)) :
    Except aerror (List node × Nat × List Char × List (List Char)) :=
  drive_chunks_go (chunks_fuel buf chunks) p buf chunks

/-- Collapse a chunked-drive result to whole-input form: the bytes still
unparsed are the remaining buffer followed by the undelivered chunks. -/
def flat_out (r : List node × Nat × List Char × List (List Char)) :
    List node × Nat × List Char :=
  (r.1, r.2.1, r.2.2.1 ++ r.2.2.2.flatten)

/-- The synchronous aedis::resp3::read loop: same tokenization as the
chunked drive, but returning the C++ signature (error code, byte count):
every error path returns a byte count of zero, discarding the consumed
accumulator; only the success path returns the accumulated count. -/
def read_sync_go : Nat → parser_state → List Char → List (List Char) → Nat →
    Option aerror × Nat
  | 0, _, _, _, _ => (some aerror.unexpected_eof, 0)
  | f + 1, p, buf, chunks, consumed =>
    match take_tok p buf with
    | none =>
      (match chunks with
      | [] => (some aerror.unexpected_eof, 0)
      | c :: cs => read_sync_go f p (buf ++ c) cs consumed)
    | some (tok, rest) =>
      match consume_tok p tok with
      | Except.error e => (some e, 0)
      | Except.ok (p2, _evs) =>
        if p2.done then (none, consumed + tok.length)
        else read_sync_go f p2 rest chunks (consumed + tok.length)

/-- Synchronous read of one complete response from a chunked stream. -/
def read_sync (chunks : List (List Char)) : Option aerror × Nat :=
  read_sync_go (chunks_fuel [] chunks) init_state [] chunks 0

/-- The ignore_response adapter of read_ops.hpp: simple_error and
blob_error nodes set the corresponding error code; every other node kind
leaves the error code untouched and the node is discarded. -/
def ignore_response (nd : node) (ec : Option aerror) : Option aerror :=
  match nd.data_type with
  | rtype.simple_error => some aerror.resp3_simple_error
  | rtype.blob_error => some aerror.resp3_blob_error
  | _ => ec

/-- One top-level response as the connection reader sees it: either a
well-formed frame of some kind, or a malformed byte sequence the parser
rejects with a (connection-fatal) parse error. -/
inductive rsp where
  | frame (k : rtype)
  | malformed (e : aerror)

/-- Modelled from the spec: the connection reader completing queued
entries in order: an adapter-reported server error completes only the
owning entry and the reader proceeds; a parse error stops the
connection, producing no further completions.  Returns the per-entry
completions and the connection error, if any. -/
def reader_completions : List rsp → List (Option aerror) × Option aerror
  | [] => ([], none)
  | rsp.malformed e :: _ => ([], some e)
  | rsp.frame k :: rest =>
      (let r := reader_completions rest
      (ignore_response ⟨k, 1, 0, []⟩ none :: r.1, r.2))

/-- The read-loop state of exec_op: whether the request still awaits a
write is req; reads are the results the subsequent resp3::async_read
calls deliver, as (error, bytes) pairs.  exec_read_loop returns the
completion and the number of reads initiated; none means the operation
is still waiting for a response that never arrives. -/
def exec_read_loop : List (Option aerror × Nat) → Nat → Nat →
    Option ((Option aerror × Nat) × Nat)
  | [], _, _ => none
  | (ec, n) :: rest, n_cmds, size =>
    match ec with
    | some e => some ((some e, 0), 1)
    | none =>
      if n_cmds ≤ 1 then some ((none, size + n), 1)
      else
        match exec_read_loop rest (n_cmds - 1) (size + n) with
        | none => none
        | some (c, reads) => some (c, reads + 1)

/-- aedis::resp3::detail::exec_op: write the request payload first (when
present); a request expecting zero responses completes right after the
write with the written byte count; otherwise read one response per
expected command, accumulating sizes.  Returns the completion paired
with the number of reads initiated. -/
def exec_op_run (req : Option (List Char)) (write_res : Option aerror × Nat)
    (reads : List (Option aerror × Nat)) (n_cmds : Nat) :
    Option ((Option aerror × Nat) × Nat) :=
  match req with
  | some _ =>
    (match write_res.1 with
    | some e => some ((some e, 0), 0)
    | none =>
      if n_cmds = 0 then some ((none, write_res.2), 0)
      else exec_read_loop reads n_cmds 0)
  | none => exec_read_loop reads n_cmds 0

/-- aedis::resp3::detail::exec_with_timeout_op, completion dispatch of
the parallel group of async_exec and the per-request timer: order0 is
the index of the operation that finished first (0 the exec, 1 the
timer), ec1/n the exec result, ec2 the timer wait result. -/
def exec_with_timeout_complete (cancelled : Bool) (order0 : Nat)
    (ec1 : Option aerror) (n : Nat) (ec2 : Option aerror) : Option aerror × Nat :=
  if cancelled then (some aerror.operation_aborted, 0)
  else if order0 = 0 then (ec1, n)
  else
    match ec2 with
    | some e => (some e, 0)
    | none => (some aerror.exec_timeout, 0)

/-- The client state the redis read_op iteration touches: the read
buffer, the queue of commands awaiting responses (front first) and the
per-request bookkeeping (payload size, remaining command count). -/
structure client_state where
  read_buffer : List Char
  commands : List Nat
  req_info : List (Nat × Nat)
deriving DecidableEq, Repr

/-- Modelled from the spec: Client::on_cmd (the client class body is
missing from the sources): pop the consumed command and decrement the
head request's remaining command count, popping the request when it
reaches zero. -/
def on_cmd (st : client_state) : client_state :=
  match st.req_info with
  | [] => { st with commands := st.commands.tail }
  | (sz, cmds) :: rest =>
      if cmds ≤ 1 then { st with commands := st.commands.tail, req_info := rest }
      else { st with commands := st.commands.tail, req_info := (sz, cmds - 1) :: rest }

/-- One iteration of the redis read_op: classify the buffered frame from
its first byte only; a push frame takes no command and leaves the queue
untouched, any other frame takes the front command and advances the
queue.  Returns the computed type, the command dispatched to the
receiver (none for pushes) and the updated state. -/
def read_op_step (st : client_state) : rtype × Option Nat × client_state :=
  match st.read_buffer with
  | [] => (rtype.invalid, none, st)
  | c :: _ =>
    let t := to_type c
    if t = rtype.push then (t, none, st)
    else (t, st.commands.head?, on_cmd st)

/-- The endpoint type from aedis/endpoint.hpp, the string fields as byte
lists. -/
structure endpoint where
  host : List Char
  port : List Char
  username : List Char
  password : List Char
deriving DecidableEq, Repr

/-- aedis::is_valid from impl/endpoint.ipp: host and port non-empty. -/
def is_valid (ep : endpoint) : Bool :=
  !ep.host.isEmpty && !ep.port.isEmpty

/-- aedis::requires_auth from impl/endpoint.ipp: username and password
non-empty. -/
def requires_auth (ep : endpoint) : Bool :=
  !ep.username.isEmpty && !ep.password.isEmpty

/-- Number of commands covered by the first k requests. -/
def cumul (cmds : List Nat) (k : Nat) : Nat :=
  ((cmds.take k).sum)

/-- The request owning the k-th command overall. -/
def req_of : List Nat → Nat → Nat
  | [], _ => 0
  | c :: rest, k => if k < c then 0 else req_of rest (k - c) + 1

/-- Counters of the reader/writer pair: requests fully written, commands
the server has answered, commands the reader has consumed. -/
structure mux_state where
  written : Nat
  responded : Nat
  read_count : Nat
deriving DecidableEq, Repr

/-- The receiver events the ordering claim speaks about. -/
inductive mux_ev where
  | on_write (req : Nat)
  | on_read (req : Nat)
deriving DecidableEq, Repr

/-- One atomic step of the writer/reader/server system, given the
per-request command counts cmds.  write is one writer_op iteration: the
front request is written whole and on_write fires in the same resumption.
respond is the environment: the server may answer a command only after
the request carrying it has been written.  read is one read_op
iteration consuming one answered command and firing on_read. -/
inductive mux_step (cmds : List Nat) : mux_state → List mux_ev → mux_state → Prop
  | write (s : mux_state) (h : s.written < cmds.length) :
      mux_step cmds s [mux_ev.on_write s.written]
        ⟨s.written + 1, s.responded, s.read_count⟩
  | respond (s : mux_state) (h : s.responded < cumul cmds s.written) :
      mux_step cmds s [] ⟨s.written, s.responded + 1, s.read_count⟩
  | read (s : mux_state) (h : s.read_count < s.responded) :
      mux_step cmds s [mux_ev.on_read (req_of cmds s.read_count)]
        ⟨s.written, s.responded, s.read_count + 1⟩

/-- Interleaved executions of the pair: a trace is any sequence of steps,
collecting the emitted events. -/
inductive mux_trace (cmds : List Nat) : mux_state → List mux_ev → mux_state → Prop
  | nil (s : mux_state) : mux_trace cmds s [] s
  | cons (s : mux_state) (e : List mux_ev) (s2 : mux_state) (tr : List mux_ev)
      (s3 : mux_state) :
      mux_step cmds s e s2 → mux_trace cmds s2 tr s3 → mux_trace cmds s (e ++ tr) s3

/-- The invariant the steps preserve: reads never overtake responses and
responses never overtake written commands. -/
def mux_inv (cmds : List Nat) (s : mux_state) : Prop :=
  s.read_count ≤ s.responded ∧ s.responded ≤ cumul cmds s.written

theorem split_crlf_sound : ∀ l t r, split_crlf l = some (t, r) →
    l = t ++ r ∧ 2 ≤ t.length := by
  intro l
  induction l using split_crlf.induct with
  | case1 rest =>
    intro t r h
    simp [split_crlf] at h
    obtain ⟨h1, h2⟩ := h
    subst h1; subst h2
    simp
  | case2 c rest hne tok r2 hsplit ih =>
    intro t r h
    rw [split_crlf] at h
    · rw [hsplit] at h
      simp at h
      obtain ⟨h1, h2⟩ := h
      obtain ⟨hl, hlen⟩ := ih tok r2 hsplit
      subst h1
      constructor
      · simp [hl, h2]
      · simp
        omega
    · exact hne
  | case3 c rest hne hsplit ih =>
    intro t r h
    rw [split_crlf] at h
    · rw [hsplit] at h
      simp at h
    · exact hne
  | case4 =>
    intro t r h
    simp [split_crlf] at h

theorem split_crlf_append : ∀ l m t r, split_crlf l = some (t, r) →
    split_crlf (l ++ m) = some (t, r ++ m) := by
  intro l
  induction l using split_crlf.induct with
  | case1 rest =>
    intro m t r h
    simp [split_crlf] at h
    obtain ⟨h1, h2⟩ := h
    subst h1; subst h2
    simp [split_crlf]
  | case2 c rest hne tok r2 hsplit ih =>
    intro m t r h
    rw [split_crlf] at h
    · rw [hsplit] at h
      simp at h
      obtain ⟨h1, h2⟩ := h
      subst h1; subst h2
      rw [List.cons_append, split_crlf]
      · rw [ih m tok r2 hsplit]
      · intro r1 hc hr
        cases rest with
        | nil => simp [split_crlf] at hsplit
        | cons a b =>
          simp at hr
          exact hne b hc (by simp [hr.1])
    · exact hne
  | case3 c rest hne hsplit ih =>
    intro m t r h
    rw [split_crlf] at h
    · rw [hsplit] at h
      simp at h
    · exact hne
  | case4 =>
    intro m t r h
    simp [split_crlf] at h

theorem take_tok_sound (p : parser_state) (buf tok rest : List Char)
    (h : take_tok p buf = some (tok, rest)) :
    buf = tok ++ rest ∧ 1 ≤ tok.length := by
  unfold take_tok at h
  by_cases hb : p.bulk = rtype.invalid
  · simp [hb] at h
    obtain ⟨h1, h2⟩ := split_crlf_sound buf tok rest h
    exact ⟨h1, by omega⟩
  · simp [hb] at h
    by_cases hlen : p.bulk_length + 2 ≤ buf.length
    · simp [hlen] at h
      obtain ⟨h1, h2⟩ := h
      subst h1; subst h2
      refine ⟨(List.take_append_drop _ _).symm, ?_⟩
      simp
      omega
    · simp [hlen] at h

theorem take_tok_shrinks (p : parser_state) (buf tok rest : List Char)
    (h : take_tok p buf = some (tok, rest)) : rest.length < buf.length := by
  obtain ⟨h1, h2⟩ := take_tok_sound p buf tok rest h
  subst h1
  simp
  omega

theorem take_tok_append (p : parser_state) (buf m tok rest : List Char)
    (h : take_tok p buf = some (tok, rest)) :
    take_tok p (buf ++ m) = some (tok, rest ++ m) := by
  unfold take_tok at h ⊢
  by_cases hb : p.bulk = rtype.invalid
  · simp [hb] at h ⊢
    exact split_crlf_append buf m tok rest h
  · simp [hb] at h ⊢
    by_cases hlen : p.bulk_length + 2 ≤ buf.length
    · simp [hlen] at h
      obtain ⟨h1, h2⟩ := h
      subst h1; subst h2
      have hlen2 : p.bulk_length + 2 ≤ buf.length + m.length := by omega
      simp [hlen2, List.take_append_of_le_length hlen,
        List.drop_append_of_le_length hlen]
    · simp [hlen] at h

theorem drive_go_fuel : ∀ f1 f2 p buf, buf.length < f1 → buf.length < f2 →
    drive_go f1 p buf = drive_go f2 p buf := by
  intro f1
  induction f1 with
  | zero => intro f2 p buf h1 h2; omega
  | succ g1 ih =>
    intro f2 p buf h1 h2
    cases f2 with
    | zero => omega
    | succ g2 =>
      simp only [drive_go]
      cases htok : take_tok p buf with
      | none => rfl
      | some tr =>
        obtain ⟨tok, rest⟩ := tr
        cases hcons : consume_tok p tok with
        | error e => simp [hcons]
        | ok pe =>
          obtain ⟨p2, evs⟩ := pe
          by_cases hd : p2.done
          · simp [hcons, hd]
          · have hlt := take_tok_shrinks p buf tok rest htok
            have heq := ih g2 p2 rest (by omega) (by omega)
            simp [hcons, hd, heq]

theorem drive_all_step (p : parser_state) (buf : List Char) :
    drive_all p buf =
      match take_tok p buf with
      | none => Except.error aerror.unexpected_eof
      | some (tok, rest) =>
        match consume_tok p tok with
        | Except.error e => Except.error e
        | Except.ok (p2, evs) =>
          if p2.done then Except.ok (evs, tok.length, rest)
          else
            match drive_all p2 rest with
            | Except.error e => Except.error e
            | Except.ok (evs2, n2, left) =>
                Except.ok (evs ++ evs2, tok.length + n2, left) := by
  rw [show drive_all p buf = drive_go (buf.length + 1) p buf from rfl]
  simp only [drive_go]
  cases htok : take_tok p buf with
  | none => rfl
  | some tr =>
    obtain ⟨tok, rest⟩ := tr
    cases hcons : consume_tok p tok with
    | error e => simp [hcons]
    | ok pe =>
      obtain ⟨p2, evs⟩ := pe
      by_cases hd : p2.done
      · simp [hcons, hd]
      · have hlt := take_tok_shrinks p buf tok rest htok
        have heq : drive_go buf.length p2 rest = drive_all p2 rest :=
          drive_go_fuel buf.length (rest.length + 1) p2 rest (by omega) (by omega)
        simp [hcons, hd, heq]

theorem drive_chunks_go_flat : ∀ f p buf chunks,
    buf.length + chunks.flatten.length + chunks.length < f →
    (drive_chunks_go f p buf chunks).map flat_out = drive_all p (buf ++ chunks.flatten) := by
  intro f
  induction f with
  | zero => intro p buf chunks h; omega
  | succ g ih =>
    intro p buf chunks h
    simp only [drive_chunks_go]
    cases htok : take_tok p buf with
    | some tr =>
      obtain ⟨tok, rest⟩ := tr
      rw [drive_all_step, take_tok_append p buf chunks.flatten tok rest htok]
      cases hcons : consume_tok p tok with
      | error e => simp [hcons, Except.map]
      | ok pe =>
        obtain ⟨p2, evs⟩ := pe
        by_cases hd : p2.done
        · simp [hcons, hd, flat_out, Except.map]
        · have hlt := take_tok_shrinks p buf tok rest htok
          have ih2 := ih p2 rest chunks (by omega)
          cases hrec : drive_chunks_go g p2 rest chunks with
          | error e =>
            rw [hrec] at ih2
            simp only [Except.map] at ih2
            simp [hcons, hd, hrec, ← ih2, Except.map]
          | ok r4 =>
            obtain ⟨evs2, n2, left, cs⟩ := r4
            rw [hrec] at ih2
            simp only [Except.map] at ih2
            simp [hcons, hd, hrec, ← ih2, flat_out, Except.map]
    | none =>
      cases chunks with
      | nil =>
        rw [drive_all_step]
        simp [htok, Except.map]
      | cons c cs =>
        have hsz : (buf ++ c).length + cs.flatten.length + cs.length < g := by
          simp [List.flatten_cons] at h ⊢
          omega
        rw [ih p (buf ++ c) cs hsz]
        simp [List.flatten_cons]

theorem drive_go_consumed : ∀ f p buf evs n left,
    drive_go f p buf = Except.ok (evs, n, left) →
    n ≤ buf.length ∧ left = buf.drop n := by
  intro f
  induction f with
  | zero => intro p buf evs n left h; simp [drive_go] at h
  | succ g ih =>
    intro p buf evs n left h
    simp only [drive_go] at h
    cases htok : take_tok p buf with
    | none => rw [htok] at h; simp at h
    | some tr =>
      obtain ⟨tok, rest⟩ := tr
      rw [htok] at h
      obtain ⟨hb, htl⟩ := take_tok_sound p buf tok rest htok
      cases hcons : consume_tok p tok with
      | error e => simp [hcons] at h
      | ok pe =>
        obtain ⟨p2, evs1⟩ := pe
        by_cases hd : p2.done
        · simp [hcons, hd] at h
          obtain ⟨he, hn, hl⟩ := h
          subst hb
          constructor
          · simp
            omega
          · rw [← hn, ← hl, List.drop_left]
        · simp [hcons, hd] at h
          cases hrec : drive_go g p2 rest with
          | error e => rw [hrec] at h; simp at h
          | ok r3 =>
            obtain ⟨evs2, n2, left2⟩ := r3
            rw [hrec] at h
            simp at h
            obtain ⟨he, hn, hl⟩ := h
            obtain ⟨ihn, ihl⟩ := ih p2 rest evs2 n2 left2 hrec
            subst hb
            constructor
            · simp
              omega
            · rw [← hn, ← hl, ihl, ← List.drop_append n2]

theorem parse_size_go_no_cr : ∀ l acc n, parse_size_go l acc = some n → '\r' ∉ l := by
  intro l
  induction l with
  | nil => intro acc n h; simp
  | cons c rest ih =>
    intro acc n h
    simp only [parse_size_go] at h
    cases hd : digit_val c with
    | none => rw [hd] at h; simp at h
    | some d =>
      rw [hd] at h
      intro hmem
      simp at hmem
      cases hmem with
      | inl hc =>
        have hnone : digit_val '\r' = none := by decide
        rw [← hc, hnone] at hd
        simp at hd
      | inr hmem2 => exact ih _ n h hmem2

theorem parse_size_no_cr (ds : List Char) (L : Nat) (h : parse_size ds = some L) :
    '\r' ∉ ds := by
  cases ds with
  | nil => simp
  | cons c rest =>
    simp only [parse_size] at h
    exact parse_size_go_no_cr (c :: rest) 0 L h

theorem parse_size_ne_query (ds : List Char) (L : Nat) (h : parse_size ds = some L) :
    ds ≠ ['?'] := by
  intro hq
  subst hq
  have hnone : parse_size ['?'] = none := by decide
  rw [hnone] at h
  simp at h

theorem split_crlf_no_cr : ∀ xs r, '\r' ∉ xs →
    split_crlf (xs ++ '\r' :: '\n' :: r) = some (xs ++ ['\r', '\n'], r) := by
  intro xs
  induction xs with
  | nil => intro r h; simp [split_crlf]
  | cons c rest ih =>
    intro r h
    simp at h
    rw [List.cons_append, split_crlf]
    · rw [ih r h.2]
      rfl
    · intro r1 hc hr
      exact h.1 hc.symm

theorem read_sync_go_spec : ∀ f p buf chunks k,
    read_sync_go f p buf chunks k =
      match drive_chunks_go f p buf chunks with
      | Except.error e => (some e, 0)
      | Except.ok r => (none, k + r.2.1) := by
  intro f
  induction f with
  | zero => intro p buf chunks k; rfl
  | succ g ih =>
    intro p buf chunks k
    simp only [read_sync_go, drive_chunks_go]
    cases htok : take_tok p buf with
    | none =>
      cases chunks with
      | nil => rfl
      | cons c cs => exact ih p (buf ++ c) cs k
    | some tr =>
      obtain ⟨tok, rest⟩ := tr
      cases hcons : consume_tok p tok with
      | error e => simp [hcons]
      | ok pe =>
        obtain ⟨p2, evs⟩ := pe
        by_cases hd : p2.done
        · simp [hcons, hd]
        · have ihe := ih p2 rest chunks (k + tok.length)
          cases hrec : drive_chunks_go g p2 rest chunks with
          | error e =>
            rw [hrec] at ihe
            simp [hcons, hd, hrec, ihe]
          | ok r4 =>
            obtain ⟨evs2, n2, left, cs⟩ := r4
            rw [hrec] at ihe
            simp [hcons, hd, hrec, ihe]
            omega

/-- C1: chunking independence of the read loop: splitting a byte stream
at arbitrary offsets and feeding it to the incremental read loop yields
exactly the same outcome (node events in the same order, consumed byte
count, unparsed remainder, or the same error) as feeding the
concatenated bytes in one piece: the chunked drive and the whole-input
drive are equal. -/
theorem chunking_independence (chunks : List (List Char)) :
    (drive_chunks init_state [] chunks).map flat_out =
      drive_all init_state chunks.flatten := by
  rw [show drive_chunks init_state [] chunks =
        drive_chunks_go (chunks_fuel [] chunks) init_state [] chunks from rfl]
  rw [drive_chunks_go_flat (chunks_fuel [] chunks) init_state [] chunks
        (by simp [chunks_fuel])]
  simp

/-- C3: buffer preservation: when the chunked read loop completes
successfully having consumed n bytes, those n bytes are exactly the
frame taken off the front of the stream, and every byte read past the
end of the frame (remaining buffer plus undelivered chunks) is exactly
the rest of the stream, preserved for the next parse. -/
theorem buffer_preservation (chunks : List (List Char)) (evs : List node) (n : Nat)
    (left : List Char) (cs : List (List Char))
    (h : drive_chunks init_state [] chunks = Except.ok (evs, n, left, cs)) :
    n ≤ chunks.flatten.length ∧
    left ++ cs.flatten = chunks.flatten.drop n ∧
    chunks.flatten.take n ++ (left ++ cs.flatten) = chunks.flatten := by
  have heq := drive_chunks_go_flat (chunks_fuel [] chunks) init_state [] chunks
    (by simp [chunks_fuel])
  rw [show drive_chunks init_state [] chunks =
        drive_chunks_go (chunks_fuel [] chunks) init_state [] chunks from rfl] at h
  rw [h] at heq
  simp only [Except.map, flat_out, List.nil_append] at heq
  have hdrive : drive_go (chunks.flatten.length + 1) init_state chunks.flatten =
      Except.ok (evs, n, left ++ cs.flatten) := heq.symm
  obtain ⟨hn, hl⟩ := drive_go_consumed (chunks.flatten.length + 1) init_state
    chunks.flatten evs n (left ++ cs.flatten) hdrive
  refine ⟨hn, hl.symm ▸ rfl, ?_⟩
  rw [hl, List.take_append_drop]

/-- C2: blob framing: every blob-kind element (blob_string, blob_error,
verbatim_string) with declared payload length L is read by obtaining
exactly L + 2 bytes after the header line (payload plus trailing CRLF)
with a length-bounded read: the whole-element drive yields the declared
payload intact even when it contains CRLF, and in bulk state (any bulk
kind, streamed chunks included) the tokenizer always splits the buffer
at bulk_length + 2 regardless of the buffer content, never scanning for
a delimiter. -/
theorem blob_framing (c : Char) (ds pl : List Char) (L : Nat)
    (hc : is_blob (to_type c) = true)
    (hds : parse_size ds = some L) (hlen : pl.length = L) :
    drive_all init_state (c :: (ds ++ '\r' :: '\n' :: (pl ++ ['\r', '\n']))) =
      Except.ok ([⟨to_type c, 1, 0, pl⟩], ds.length + pl.length + 5, []) ∧
    (∀ t : rtype, t ≠ rtype.invalid → ∀ buf : List Char, L + 2 ≤ buf.length →
      take_tok (⟨[], t, L, false⟩ : parser_state) buf =
        some (buf.take (L + 2), buf.drop (L + 2))) := by
  have hti : to_type c ≠ rtype.invalid := by
    intro h
    rw [h] at hc
    simp [is_blob] at hc
  have hcr : c ≠ '\r' := by
    intro h
    subst h
    revert hc
    decide
  constructor
  · have hds2 := parse_size_no_cr ds L hds
    have hnocr : '\r' ∉ (c :: ds) := by
      intro hm
      rcases List.mem_cons.mp hm with h | h
      · exact hcr h.symm
      · exact hds2 h
    have hsplit := split_crlf_no_cr (c :: ds) (pl ++ ['\r', '\n']) hnocr
    rw [drive_all_step]
    have htok : take_tok init_state (c :: (ds ++ '\r' :: '\n' :: (pl ++ ['\r', '\n']))) =
        some (c :: (ds ++ ['\r', '\n']), pl ++ ['\r', '\n']) := by
      rw [show take_tok init_state (c :: (ds ++ '\r' :: '\n' :: (pl ++ ['\r', '\n']))) =
            split_crlf (c :: (ds ++ '\r' :: '\n' :: (pl ++ ['\r', '\n']))) from rfl]
      exact hsplit
    have hcontent : ((ds ++ ['\r', '\n']).take ((ds ++ ['\r', '\n']).length - 2)) = ds := by
      simp
    have hcons : consume_tok init_state (c :: (ds ++ ['\r', '\n'])) =
        Except.ok ((⟨[], to_type c, L, false⟩ : parser_state), ([] : List node)) := by
      have h1 : consume_tok init_state (c :: (ds ++ ['\r', '\n'])) =
          consume_line init_state c
            ((ds ++ ['\r', '\n']).take ((ds ++ ['\r', '\n']).length - 2)) := rfl
      rw [h1, hcontent]
      unfold consume_line
      have hq := parse_size_ne_query ds L hds
      simp [hti, hc, hq, hds, init_state]
    have hrest : drive_all (⟨[], to_type c, L, false⟩ : parser_state) (pl ++ ['\r', '\n']) =
        Except.ok ([⟨to_type c, 1, 0, pl⟩], L + 2, []) := by
      rw [drive_all_step]
      have hlen2 : L ≤ pl.length := by omega
      have htok2 : take_tok (⟨[], to_type c, L, false⟩ : parser_state) (pl ++ ['\r', '\n']) =
          some ((pl ++ ['\r', '\n']).take (L + 2), (pl ++ ['\r', '\n']).drop (L + 2)) := by
        simp [take_tok, hlen2, hti]
      have htake : (pl ++ ['\r', '\n']).take (L + 2) = pl ++ ['\r', '\n'] := by
        apply List.take_of_length_le
        simp
        omega
      have hdrop : (pl ++ ['\r', '\n']).drop (L + 2) = [] := by
        apply List.drop_eq_nil_of_le
        simp
        omega
      have hbulk : consume_tok (⟨[], to_type c, L, false⟩ : parser_state) (pl ++ ['\r', '\n']) =
          Except.ok ((⟨[], rtype.invalid, 0, true⟩ : parser_state),
            [⟨to_type c, 1, 0, pl⟩]) := by
        have hpl : (pl ++ ['\r', '\n']).take L = pl := by
          rw [← hlen]
          exact List.take_left pl ['\r', '\n']
        simp [consume_tok, consume_bulk, open_blob_stream, commit_elem, hpl, hti]
      rw [htok2, htake, hdrop]
      simp [hbulk, hlen]
    simp [htok, hcons, hrest, hlen]
    omega
  · intro t ht buf hle
    simp [take_tok, ht, hle]

/-- C10: the synchronous resp3::read returns the C++ pair (error code,
consumed byte count) equal to the outcome of the chunked drive with the
count zeroed on every error: whenever it completes with a non-empty
error code the returned count is 0 even when earlier iterations already
consumed bytes, and only on success does the returned count equal the
total number of consumed bytes. -/
theorem read_zero_on_error (chunks : List (List Char)) :
    read_sync chunks =
      (match drive_chunks init_state [] chunks with
      | Except.error e => (some e, 0)
      | Except.ok r => ((none : Option aerror), r.2.1)) := by
  rw [show read_sync chunks =
        read_sync_go (chunks_fuel [] chunks) init_state [] chunks 0 from rfl]
  rw [read_sync_go_spec]
  rw [show drive_chunks init_state [] chunks =
        drive_chunks_go (chunks_fuel [] chunks) init_state [] chunks from rfl]
  cases drive_chunks_go (chunks_fuel [] chunks) init_state [] chunks with
  | error e => rfl
  | ok r => simp

/-- C4: the reader determines whether a buffered frame is a push by
inspecting only the first byte of the frame header: the classification
of two buffers with the same first byte agrees; a push frame takes no
command and leaves the command queue and request bookkeeping untouched;
a non-push frame takes the front command and advances the queue; and
the push type byte is the one mapping to the push kind. -/
theorem push_detection :
    (∀ st1 st2 : client_state, ∀ c : Char, ∀ r1 r2 : List Char,
      st1.read_buffer = c :: r1 → st2.read_buffer = c :: r2 →
      (read_op_step st1).1 = (read_op_step st2).1) ∧
    (∀ st : client_state, ∀ c : Char, ∀ r : List Char,
      st.read_buffer = c :: r → to_type c = rtype.push →
      read_op_step st = (rtype.push, none, st)) ∧
    (∀ st : client_state, ∀ c : Char, ∀ r : List Char,
      st.read_buffer = c :: r → to_type c ≠ rtype.push →
      read_op_step st = (to_type c, st.commands.head?, on_cmd st) ∧
      (on_cmd st).commands = st.commands.tail) ∧
    to_type '>' = rtype.push := by
  refine ⟨?_, ?_, ?_, by decide⟩
  · intro st1 st2 c r1 r2 h1 h2
    by_cases hp : to_type c = rtype.push <;> simp [read_op_step, h1, h2, hp]
  · intro st c r h1 hp
    simp [read_op_step, h1, hp]
  · intro st c r h1 hp
    refine ⟨by simp [read_op_step, h1, hp], ?_⟩
    cases hri : st.req_info with
    | nil => simp [on_cmd, hri]
    | cons pr rest =>
      obtain ⟨sz, cmds⟩ := pr
      by_cases hc : cmds ≤ 1 <;> simp [on_cmd, hri, hc]

theorem push_detection_witness :
    read_op_step ⟨['>', 'x'], [7], [(3, 1)]⟩ = (rtype.push, none, ⟨['>', 'x'], [7], [(3, 1)]⟩) ∧
    read_op_step ⟨['+', 'x'], [7, 8], [(3, 2)]⟩ =
      (to_type '+', some 7, on_cmd ⟨['+', 'x'], [7, 8], [(3, 2)]⟩) ∧
    (on_cmd ⟨['+', 'x'], [7, 8], [(3, 2)]⟩).commands = [8] := by
  have h2 := push_detection.2.1 ⟨['>', 'x'], [7], [(3, 1)]⟩ '>' ['x'] rfl (by decide)
  have h3 := push_detection.2.2.1 ⟨['+', 'x'], [7, 8], [(3, 2)]⟩ '+' ['x'] rfl (by decide)
  exact ⟨h2, h3.1, h3.2.trans (by rfl)⟩

theorem exec_read_loop_all_ok : ∀ sizes : List Nat, ∀ acc : Nat, sizes ≠ [] →
    exec_read_loop (sizes.map (fun s => ((none : Option aerror), s))) sizes.length acc =
      some (((none : Option aerror), acc + sizes.sum), sizes.length) := by
  intro sizes
  induction sizes with
  | nil => intro acc h; simp at h
  | cons sz rest ih =>
    intro acc h
    cases rest with
    | nil => simp [exec_read_loop]
    | cons s2 r2 =>
      have ih2 := ih (acc + sz) (by simp)
      simp only [List.map_cons] at ih2 ⊢
      simp only [exec_read_loop] at ih2 ⊢
      simp only [List.length_cons, Nat.add_sub_cancel] at ih2 ⊢
      rw [ih2]
      simp
      omega

/-- C5: a request with zero expected responses completes successfully
right after its payload is written, initiating no read and returning the
written byte count; a request with n > 0 expected responses reads
exactly n top-level responses before completing, accumulating their
byte counts. -/
theorem exec_zero_commands (pl : List Char) (w : Nat) (reads : List (Option aerror × Nat))
    (sizes : List Nat) (hne : sizes ≠ []) :
    exec_op_run (some pl) ((none : Option aerror), w) reads 0 = some (((none : Option aerror), w), 0) ∧
    exec_op_run (some pl) ((none : Option aerror), w)
        (sizes.map (fun s => ((none : Option aerror), s))) sizes.length =
      some (((none : Option aerror), sizes.sum), sizes.length) := by
  constructor
  · rfl
  · have hlen : sizes.length ≠ 0 := by
      cases sizes with
      | nil => exact absurd rfl hne
      | cons a b => simp
    unfold exec_op_run
    simp only [hlen, if_false]
    rw [exec_read_loop_all_ok sizes 0 hne]
    simp

theorem exec_zero_commands_witness :
    exec_op_run (some ['P']) ((none : Option aerror), 4) [] 0 =
      some (((none : Option aerror), 4), 0) ∧
    exec_op_run (some ['P']) ((none : Option aerror), 4)
        ([3, 4].map (fun s => ((none : Option aerror), s))) 2 =
      some (((none : Option aerror), 7), 2) := by
  have h := exec_zero_commands ['P'] 4 [] [3, 4] (by decide)
  exact ⟨h.1, h.2⟩

/-- C6: the ignore adapter maps a simple_error node to the error
resp3_simple_error and a blob_error node to resp3_blob_error, sets no
error for every other kind and discards the node; and such a
per-request server error does not terminate the connection read: the
reader completes the owning entry with the error and still processes
the remaining responses. -/
theorem ignore_adapter (nd : node) (ec : Option aerror) :
    (nd.data_type = rtype.simple_error →
      ignore_response nd ec = some aerror.resp3_simple_error) ∧
    (nd.data_type = rtype.blob_error →
      ignore_response nd ec = some aerror.resp3_blob_error) ∧
    (nd.data_type ≠ rtype.simple_error → nd.data_type ≠ rtype.blob_error →
      ignore_response nd ec = ec) ∧
    (∀ rest : List rsp,
      reader_completions (rsp.frame rtype.simple_error :: rest) =
        (some aerror.resp3_simple_error :: (reader_completions rest).1,
          (reader_completions rest).2)) := by
  refine ⟨?_, ?_, ?_, ?_⟩
  · intro h; simp [ignore_response, h]
  · intro h; simp [ignore_response, h]
  · intro h1 h2
    unfold ignore_response
    cases hnd : nd.data_type <;> simp_all
  · intro rest
    simp [reader_completions, ignore_response]

theorem ignore_adapter_witness :
    ignore_response ⟨rtype.simple_error, 1, 0, []⟩ none = some aerror.resp3_simple_error ∧
    ignore_response ⟨rtype.blob_error, 1, 0, []⟩ none = some aerror.resp3_blob_error ∧
    ignore_response ⟨rtype.number, 1, 0, ['1']⟩ none = none ∧
    reader_completions [rsp.frame rtype.simple_error, rsp.frame rtype.number] =
      ([some aerror.resp3_simple_error, none], none) := by
  refine ⟨(ignore_adapter ⟨rtype.simple_error, 1, 0, []⟩ none).1 rfl,
    (ignore_adapter ⟨rtype.blob_error, 1, 0, []⟩ none).2.1 rfl,
    (ignore_adapter ⟨rtype.number, 1, 0, ['1']⟩ none).2.2.1 (by decide) (by decide), ?_⟩
  have h := (ignore_adapter ⟨rtype.simple_error, 1, 0, []⟩ none).2.2.2 [rsp.frame rtype.number]
  exact h.trans (by rfl)

/-- C7: completion dispatch of the timed exec: when the per-request
timer finishes first with no timer error the operation completes with
exec_timeout and zero bytes; when the timer wait itself failed the
operation completes with the timer error and zero bytes; and when the
exec finishes first its error and byte count are forwarded unchanged. -/
theorem exec_timeout_dispatch :
    (∀ ec1 : Option aerror, ∀ n : Nat,
      exec_with_timeout_complete false 1 ec1 n none = (some aerror.exec_timeout, 0)) ∧
    (∀ ec1 : Option aerror, ∀ n : Nat, ∀ e : aerror,
      exec_with_timeout_complete false 1 ec1 n (some e) = (some e, 0)) ∧
    (∀ ec1 : Option aerror, ∀ n : Nat, ∀ ec2 : Option aerror,
      exec_with_timeout_complete false 0 ec1 n ec2 = (ec1, n)) :=
  ⟨fun _ _ => rfl, fun _ _ _ => rfl, fun _ _ _ => rfl⟩

theorem req_of_lt_of_lt_cumul : ∀ cmds : List Nat, ∀ k w, k < cumul cmds w →
    req_of cmds k < w := by
  intro cmds
  induction cmds with
  | nil => intro k w h; simp [cumul] at h
  | cons c rest ih =>
    intro k w h
    cases w with
    | zero => simp [cumul] at h
    | succ w2 =>
      simp only [cumul, List.take_succ_cons, List.sum_cons] at h
      unfold req_of
      by_cases hk : k < c
      · simp [hk]
      · simp [hk]
        have h2 : k - c < cumul rest w2 := by
          unfold cumul
          omega
        have := ih (k - c) w2 h2
        omega

theorem mux_step_inv (cmds : List Nat) (s : mux_state) (e : List mux_ev) (s2 : mux_state)
    (hstep : mux_step cmds s e s2) (hinv : mux_inv cmds s) : mux_inv cmds s2 := by
  obtain ⟨h1, h2⟩ := hinv
  cases hstep with
  | write h =>
    refine ⟨h1, le_trans h2 ?_⟩
    show cumul cmds s.written ≤ cumul cmds (s.written + 1)
    unfold cumul
    rw [List.sum_take_succ cmds s.written h]
    omega
  | respond h =>
    exact ⟨by show s.read_count ≤ s.responded + 1; omega,
      by show s.responded + 1 ≤ cumul cmds s.written; omega⟩
  | read h =>
    exact ⟨by show s.read_count + 1 ≤ s.responded; omega,
      by show s.responded ≤ cumul cmds s.written; exact h2⟩

theorem mux_trace_on_read_after_write (cmds : List Nat) :
    ∀ s tr s2, mux_trace cmds s tr s2 → mux_inv cmds s →
    ∀ tr1 tr2 : List mux_ev, ∀ i : Nat, tr = tr1 ++ mux_ev.on_read i :: tr2 →
    mux_ev.on_write i ∈ tr1 ∨ i < s.written := by
  intro s tr s2 htr
  induction htr with
  | nil s => intro hinv tr1 tr2 i heq; simp at heq
  | cons s e s2 tr s3 hstep htail ih =>
    intro hinv tr1 tr2 i heq
    have hinv2 := mux_step_inv cmds s e s2 hstep hinv
    cases hstep with
    | write hw =>
      cases tr1 with
      | nil => simp at heq
      | cons x rest1 =>
        simp at heq
        obtain ⟨hx, heq2⟩ := heq
        have hih := ih hinv2 rest1 tr2 i heq2
        cases hih with
        | inl hmem => exact Or.inl (List.mem_cons_of_mem x hmem)
        | inr hlt =>
          by_cases hi : i = s.written
          · left
            rw [← hx, hi]
            exact List.mem_cons_self _ _
          · right
            simp at hlt
            omega
    | respond hr =>
      simp only [List.nil_append] at heq
      exact ih hinv2 tr1 tr2 i heq
    | read hr =>
      cases tr1 with
      | nil =>
        simp at heq
        obtain ⟨hi, _⟩ := heq
        right
        rw [← hi]
        apply req_of_lt_of_lt_cumul
        obtain ⟨h1, h2⟩ := hinv
        omega
      | cons x rest1 =>
        simp at heq
        obtain ⟨hx, heq2⟩ := heq
        have hih := ih hinv2 rest1 tr2 i heq2
        cases hih with
        | inl hmem => exact Or.inl (List.mem_cons_of_mem x hmem)
        | inr hlt => exact Or.inr hlt

/-- C8: on_write fires strictly before any on_read of the same request:
in every interleaved execution of the writer/reader pair from the
initial state, with the server answering only commands of written
requests, every on_read event for request i is preceded in the trace by
the on_write event of request i. -/
theorem on_write_before_on_read (cmds : List Nat) (tr : List mux_ev) (s2 : mux_state)
    (htr : mux_trace cmds ⟨0, 0, 0⟩ tr s2) (tr1 tr2 : List mux_ev) (i : Nat)
    (heq : tr = tr1 ++ mux_ev.on_read i :: tr2) :
    mux_ev.on_write i ∈ tr1 := by
  have hinv : mux_inv cmds ⟨0, 0, 0⟩ := ⟨le_refl 0, by simp [cumul]⟩
  have h := mux_trace_on_read_after_write cmds ⟨0, 0, 0⟩ tr s2 htr hinv tr1 tr2 i heq
  cases h with
  | inl hmem => exact hmem
  | inr hlt => exact absurd hlt (by simp)

theorem on_write_before_on_read_witness :
    mux_ev.on_write 0 ∈ [mux_ev.on_write 0] := by
  have h1 : mux_step [1] ⟨0, 0, 0⟩ [mux_ev.on_write 0] ⟨1, 0, 0⟩ :=
    mux_step.write ⟨0, 0, 0⟩ (by decide)
  have h2 : mux_step [1] ⟨1, 0, 0⟩ [] ⟨1, 1, 0⟩ :=
    mux_step.respond ⟨1, 0, 0⟩ (by decide)
  have h3 : mux_step [1] ⟨1, 1, 0⟩ [mux_ev.on_read 0] ⟨1, 1, 1⟩ :=
    mux_step.read ⟨1, 1, 0⟩ (by decide)
  have htr : mux_trace [1] ⟨0, 0, 0⟩ [mux_ev.on_write 0, mux_ev.on_read 0] ⟨1, 1, 1⟩ :=
    mux_trace.cons _ _ _ _ _ h1 (mux_trace.cons _ _ _ _ _ h2
      (mux_trace.cons _ _ _ _ _ h3 (mux_trace.nil _)))
  exact on_write_before_on_read [1] [mux_ev.on_write 0, mux_ev.on_read 0] ⟨1, 1, 1⟩ htr
    [mux_ev.on_write 0] [] 0 rfl

/-- C9: requires_auth holds iff both username and password are non-empty
(so an endpoint with a username but an empty password is classified as
not requiring authentication), and is_valid holds iff both host and
port are non-empty. -/
theorem requires_auth_iff_both_nonempty (ep : endpoint) :
    (requires_auth ep = true ↔ ep.username ≠ [] ∧ ep.password ≠ []) ∧
    requires_auth { ep with password := [] } = false ∧
    (is_valid ep = true ↔ ep.host ≠ [] ∧ ep.port ≠ []) := by
  refine ⟨?_, ?_, ?_⟩
  · simp [requires_auth]
  · simp [requires_auth]
  · simp [is_valid]

theorem buffer_preservation_witness :
    drive_chunks init_state [] [['+', 'O'], ['K', '\r', '\n', 'X']] =
      Except.ok ([⟨rtype.simple_string, 1, 0, ['O', 'K']⟩], 5, ['X'], ([] : List (List Char))) ∧
    (5 ≤ ([['+', 'O'], ['K', '\r', '\n', 'X']] : List (List Char)).flatten.length ∧
      ['X'] ++ ([] : List (List Char)).flatten =
        ([['+', 'O'], ['K', '\r', '\n', 'X']] : List (List Char)).flatten.drop 5 ∧
      ([['+', 'O'], ['K', '\r', '\n', 'X']] : List (List Char)).flatten.take 5 ++
          (['X'] ++ ([] : List (List Char)).flatten) =
        ([['+', 'O'], ['K', '\r', '\n', 'X']] : List (List Char)).flatten) := by
  refine ⟨by rfl, ?_⟩
  exact buffer_preservation [['+', 'O'], ['K', '\r', '\n', 'X']]
    [⟨rtype.simple_string, 1, 0, ['O', 'K']⟩] 5 ['X'] [] (by rfl)

theorem blob_framing_witness :
    is_blob (to_type '$') = true ∧
    parse_size ['4'] = some 4 ∧
    (['a', '\r', '\n', 'b'] : List Char).length = 4 ∧
    (drive_all init_state
          ('$' :: (['4'] ++ '\r' :: '\n' :: (['a', '\r', '\n', 'b'] ++ ['\r', '\n']))) =
        Except.ok ([⟨rtype.blob_string, 1, 0, ['a', '\r', '\n', 'b']⟩], 10, []) ∧
      (∀ t : rtype, t ≠ rtype.invalid → ∀ buf : List Char, 4 + 2 ≤ buf.length →
        take_tok (⟨[], t, 4, false⟩ : parser_state) buf =
          some (buf.take (4 + 2), buf.drop (4 + 2)))) := by
  refine ⟨by rfl, by rfl, by rfl, ?_⟩
  exact blob_framing '$' ['4'] ['a', '\r', '\n', 'b'] 4 (by rfl) (by rfl) (by rfl)

theorem exec_timeout_dispatch_witness :
    exec_with_timeout_complete false 1 none 7 none = (some aerror.exec_timeout, 0) ∧
    exec_with_timeout_complete false 1 none 7 (some (aerror.other 3)) =
      (some (aerror.other 3), 0) ∧
    exec_with_timeout_complete false 0 (some aerror.resp3_simple_error) 7 none =
      (some aerror.resp3_simple_error, 7) :=
  ⟨exec_timeout_dispatch.1 none 7, exec_timeout_dispatch.2.1 none 7 (aerror.other 3),
    exec_timeout_dispatch.2.2 (some aerror.resp3_simple_error) 7 none⟩

theorem requires_auth_witness :
    requires_auth ⟨['h'], ['p'], ['u'], []⟩ = false ∧
    requires_auth ⟨['h'], ['p'], ['u'], ['w']⟩ = true ∧
    is_valid ⟨['h'], ['p'], [], []⟩ = true := by
  refine ⟨(requires_auth_iff_both_nonempty ⟨['h'], ['p'], ['u'], []⟩).2.1, ?_, ?_⟩
  · exact (requires_auth_iff_both_nonempty ⟨['h'], ['p'], ['u'], ['w']⟩).1.mpr
      ⟨by decide, by decide⟩
  · exact (requires_auth_iff_both_nonempty ⟨['h'], ['p'], [], []⟩).2.2.mpr
      ⟨by decide, by decide⟩

end Aedis
